import Mathlib

/-!
Verification of `tesuji` container formatting (`src/include/tesuji/container_io.hpp`).

Shallow embedding: C++ strings are `List Char`; an output stream is the list of
characters written so far, and `os << x` is modelled as appending the text of
`x` to that list.  The stream's `boolalpha` formatting flag (which the header
mentions: "Remember to `os << std::boolalpha;` if you want bools to use words")
is threaded as an explicit `Bool` parameter; a default-constructed stream has it
off.  All call sites in the source pass the one-character string delimiter `"'"`,
so the delimiter is modelled as a single `Char`.
-/

namespace Tesuji

/-- The single-quote character, the source's default string delimiter. -/
def sq : Char := Char.ofNat 39

/-- The backslash character. -/
def bs : Char := Char.ofNat 92

/-- The opening curly brace character. -/
def lcur : Char := Char.ofNat 123

/-- The closing curly brace character. -/
def rcur : Char := Char.ofNat 125

/-- First regex pass of `decorate_string` (container_io.hpp:127):
`regex_replace(value, escapeRe, replacement)` with `escapeRe = \\` and
replacement `\$&`, i.e. every backslash becomes two backslashes. -/
def escapeBackslash : List Char → List Char
  | [] => []
  | c :: cs => if c = bs then bs :: bs :: escapeBackslash cs else c :: escapeBackslash cs

/-- Second regex pass of `decorate_string` (container_io.hpp:128):
`regex_replace(value, delimRe, replacement)` where `delimRe` is the
regex-escaped literal delimiter, i.e. every occurrence of the delimiter
character `d` becomes backslash-`d`. -/
def escapeDelim (d : Char) : List Char → List Char
  | [] => []
  | c :: cs => if c = d then bs :: d :: escapeDelim d cs else c :: escapeDelim d cs

/-- The escaping performed by `decorate_string` (container_io.hpp:120-128):
backslash pass first, then delimiter pass. -/
def escape_value (d : Char) (value : List Char) : List Char :=
  escapeDelim d (escapeBackslash value)

/-- The NUL character. -/
def nul : Char := Char.ofNat 0

/-- What `os << p` writes for a C-string pointer `p` obtained from `c_str()`:
the characters up to, not including, the first NUL. -/
def c_str : List Char → List Char
  | [] => []
  | c :: cs => if c = nul then [] else c :: c_str cs

/-- `decorate_string` (container_io.hpp:108-135): escape the value, then write
delimiter, escaped value, delimiter to the stream.  The escaped value is
written as `os << value.c_str()` (hpp:131), so it is truncated at its first
embedded NUL character; the delimiter writes are the configured one-character
delimiter (NUL-free at every call site, which always passes the quote). -/
def decorate_string (os : List Char) (value : List Char) (stringDelimiter : Char) : List Char :=
  ((os ++ [stringDelimiter]) ++ c_str (escape_value stringDelimiter value)) ++ [stringDelimiter]

/-- The values the container formatter can print: scalar ints and bools,
string-like values, the sequence-operator containers (vector, deque,
forward_list, list, array), the set-operator containers (set, multiset,
unordered_set, unordered_multiset), the map-operator containers (map, multimap,
unordered_map, unordered_multimap) and tuples. -/
inductive Value : Type where
  | intV : Int → Value
  | boolV : Bool → Value
  | strV : List Char → Value
  | seqV : List Value → Value
  | setV : List Value → Value
  | mapV : List (Value × Value) → Value
  | tupV : List Value → Value

/-- Text a standard stream writes for a `bool`: `1`/`0` by default,
`true`/`false` when the stream's `boolalpha` flag is set. -/
def boolText (boolalpha : Bool) (b : Bool) : List Char :=
  if boolalpha then (if b then "true".toList else "false".toList)
  else (if b then "1".toList else "0".toList)

/-- Text a standard stream writes for an `int`. -/
def intText (n : Int) : List Char :=
  (toString n).toList

mutual

/-- Models `os << value`: scalars and bare strings use the standard inserters;
containers dispatch to the `operator<<` overloads of container_io.hpp, which
call `detail::decorate` / `decorate_assoc` with the hard-coded delimiters
(sequence and set operators both pass `{"[", "]"}`, container_io.hpp:323-339;
maps pass `{"{", "}"}`, hpp:362-373; tuples pass `{"(", ")"}`, hpp:348-352). -/
def insert (ba : Bool) (os : List Char) : Value → List Char
  | .intV n => os ++ intText n
  | .boolV b => os ++ boolText ba b
  | .strV s => os ++ s
  | .seqV l => decorate ba os ("[".toList, "]".toList) sq (", ".toList) l
  | .setV l => decorate ba os ("[".toList, "]".toList) sq (", ".toList) l
  | .mapV l => decorate_assoc ba os ([lcur], [rcur]) sq (", ".toList) (": ".toList) l
  | .tupV l => decorate_tup ba os ("(".toList, ")".toList) sq (", ".toList) l
termination_by v => (sizeOf v, 0)

/-- The element emission inside the container loops: the
`if constexpr(is_string_like_v<...>)` dispatch (container_io.hpp:202-206) —
string-like elements go through `decorate_string`, everything else through
`os << value`. -/
def emit_elem (ba : Bool) (os : List Char) (stringDelimiter : Char) : Value → List Char
  | .strV s => decorate_string os s stringDelimiter
  | v => insert ba os v
termination_by v => (sizeOf v, 1)

/-- `detail::decorate` for iterable containers (container_io.hpp:187-211):
open delimiter, the element loop, close delimiter. -/
def decorate (ba : Bool) (os : List Char) (containerDelimiters : List Char × List Char)
    (stringDelimiter : Char) (valueSeparator : List Char) (container : List Value) : List Char :=
  decorate_loop ba stringDelimiter valueSeparator (os ++ containerDelimiters.1) false container
    ++ containerDelimiters.2
termination_by (sizeOf container, 2)

/-- The range-for loop of `detail::decorate` (container_io.hpp:196-207), with
the `printValueSeparator` flag threaded explicitly. -/
def decorate_loop (ba : Bool) (stringDelimiter : Char) (valueSeparator : List Char)
    (os : List Char) (printValueSeparator : Bool) : List Value → List Char
  | [] => os
  | v :: vs =>
    decorate_loop ba stringDelimiter valueSeparator
      (emit_elem ba (if printValueSeparator then os ++ valueSeparator else os) stringDelimiter v)
      true vs
termination_by l => (sizeOf l, 0)

/-- `detail::decorate` for `std::tuple` (container_io.hpp:270-281): open
delimiter, `decorate_tuple<0>` with the flag initially false, close delimiter. -/
def decorate_tup (ba : Bool) (os : List Char) (containerDelimiters : List Char × List Char)
    (stringDelimiter : Char) (valueSeparator : List Char) (container : List Value) : List Char :=
  decorate_tuple ba stringDelimiter valueSeparator (os ++ containerDelimiters.1) false container
    ++ containerDelimiters.2
termination_by (sizeOf container, 2)

/-- `detail::decorate_tuple` (container_io.hpp:244-267): emit the separator if
the flag is set, emit the element, recurse with the flag set. -/
def decorate_tuple (ba : Bool) (stringDelimiter : Char) (valueSeparator : List Char)
    (os : List Char) (printValueSeparator : Bool) : List Value → List Char
  | [] => os
  | v :: vs =>
    decorate_tuple ba stringDelimiter valueSeparator
      (emit_elem ba (if printValueSeparator then os ++ valueSeparator else os) stringDelimiter v)
      true vs
termination_by l => (sizeOf l, 0)

/-- `detail::decorate_assoc` (container_io.hpp:284-317): open delimiter, the
key/value loop, close delimiter. -/
def decorate_assoc (ba : Bool) (os : List Char) (containerDelimiters : List Char × List Char)
    (stringDelimiter : Char) (valueSeparator : List Char) (keyValueSeparator : List Char)
    (container : List (Value × Value)) : List Char :=
  decorate_assoc_loop ba stringDelimiter valueSeparator keyValueSeparator
    (os ++ containerDelimiters.1) false container ++ containerDelimiters.2
termination_by (sizeOf container, 2)

/-- The range-for loop of `detail::decorate_assoc` (container_io.hpp:294-313):
separator if the flag is set, then key, key-value separator, value, each
dispatched through the string-like check. -/
def decorate_assoc_loop (ba : Bool) (stringDelimiter : Char) (valueSeparator : List Char)
    (keyValueSeparator : List Char) (os : List Char) (printValueSeparator : Bool) :
    List (Value × Value) → List Char
  | [] => os
  | (k, v) :: rest =>
    decorate_assoc_loop ba stringDelimiter valueSeparator keyValueSeparator
      (emit_elem ba
        (emit_elem ba (if printValueSeparator then os ++ valueSeparator else os)
          stringDelimiter k ++ keyValueSeparator)
        stringDelimiter v)
      true rest
termination_by l => (sizeOf l, 0)

end

/-- Formatting a value on a fresh stream (default-constructed: empty buffer;
`boolalpha` per the flag). -/
def format (boolalpha : Bool) (v : Value) : List Char :=
  insert boolalpha [] v

/-- `operator<<` for `std::pair` (container_io.hpp:355-359): converts the pair
to a two-element `std::tuple` and streams that. -/
def pair_insert (ba : Bool) (os : List Char) (a b : Value) : List Char :=
  insert ba os (.tupV [a, b])

/-- The text one container element contributes: what `emit_elem` writes on an
empty stream. -/
def elem_text (ba : Bool) (stringDelimiter : Char) (v : Value) : List Char :=
  emit_elem ba [] stringDelimiter v

/-- The text one mapping entry contributes: key text, key-value separator,
value text. -/
def entry_text (ba : Bool) (stringDelimiter : Char) (keyValueSeparator : List Char)
    (kv : Value × Value) : List Char :=
  elem_text ba stringDelimiter kv.1 ++ keyValueSeparator ++ elem_text ba stringDelimiter kv.2

/-- What the `decorate` loop writes on an empty stream. -/
def decorate_loop_text (ba : Bool) (sd : Char) (vsep : List Char) (p : Bool)
    (l : List Value) : List Char :=
  decorate_loop ba sd vsep [] p l

/-- What the `decorate_assoc` loop writes on an empty stream. -/
def decorate_assoc_loop_text (ba : Bool) (sd : Char) (vsep : List Char) (kvsep : List Char)
    (p : Bool) (l : List (Value × Value)) : List Char :=
  decorate_assoc_loop ba sd vsep kvsep [] p l

/-- Modelled from the spec (§4.4 Parser, not in src/): the unescape rule —
scan left to right, map backslash-backslash back to a backslash and
backslash-delimiter back to the delimiter, reject any other
backslash-prefixed character (`MalformedEscape`, modelled as `none`). -/
def unescape (d : Char) : List Char → Option (List Char)
  | [] => some []
  | c :: cs =>
    if c = bs then
      match cs with
      | [] => none
      | c2 :: cs2 =>
        if c2 = bs ∨ c2 = d then (unescape d cs2).map (fun t => c2 :: t) else none
    else (unescape d cs).map (fun t => c :: t)

/-- The per-character escaping rule the spec describes: backslash to double
backslash, the delimiter to backslash-delimiter, everything else verbatim. -/
def esc_char (d : Char) (c : Char) : List Char :=
  if c = bs then [bs, bs] else if c = d then [bs, d] else [c]

lemma escapeDelim_append (d : Char) (a b : List Char) :
    escapeDelim d (a ++ b) = escapeDelim d a ++ escapeDelim d b := by
  induction a with
  | nil => simp [escapeDelim]
  | cons c cs ih =>
    simp only [List.cons_append, escapeDelim]
    split <;> simp [ih]

lemma escape_value_flatMap (d : Char) (h : d ≠ bs) :
    ∀ s : List Char, escape_value d s = s.flatMap (esc_char d) := by
  intro s
  induction s with
  | nil => rfl
  | cons c cs ih =>
    simp only [escape_value, escapeBackslash, List.flatMap_cons] at *
    by_cases hc : c = bs
    · subst hc
      rw [if_pos rfl]
      have hbd : ¬(bs = d) := fun hh => h hh.symm
      simp only [escapeDelim, if_neg hbd]
      rw [ih, esc_char]
      simp
    · rw [if_neg hc]
      simp only [escapeDelim]
      by_cases hd : c = d
      · subst hd
        rw [if_pos rfl, ih, esc_char, if_neg hc, if_pos rfl]
        simp
      · rw [if_neg hd, ih, esc_char, if_neg hc, if_neg hd]
        simp

lemma unescape_esc_char (d : Char) (h : d ≠ bs) (c : Char) (t : List Char) :
    unescape d (esc_char d c ++ t) = (unescape d t).map (fun r => c :: r) := by
  by_cases hc : c = bs
  · subst hc
    simp [esc_char, unescape]
  · by_cases hd : c = d
    · subst hd
      simp [esc_char, if_neg hc, unescape, hc]
    · simp only [esc_char, if_neg hc, if_neg hd, List.singleton_append]
      rw [unescape.eq_def]
      simp [hc]

lemma unescape_escape (d : Char) (h : d ≠ bs) :
    ∀ s : List Char, unescape d (escape_value d s) = some s := by
  intro s
  induction s with
  | nil => rfl
  | cons c cs ih =>
    rw [escape_value_flatMap d h, List.flatMap_cons, ← escape_value_flatMap d h cs,
      unescape_esc_char d h, ih]
    rfl

lemma not_mem_escapeBackslash {c : Char} (hb : c ≠ bs) :
    ∀ s : List Char, c ∉ s → c ∉ escapeBackslash s := by
  intro s
  induction s with
  | nil => intro _; simp [escapeBackslash]
  | cons x xs ih =>
    intro h
    have hx : c ≠ x := fun hh => h (by simp [hh])
    have hxs : c ∉ xs := fun hh => h (List.mem_cons_of_mem _ hh)
    simp only [escapeBackslash]
    split
    · simp [hb, ih hxs]
    · simp [hx, ih hxs]

lemma not_mem_escapeDelim {c : Char} (d : Char) (hb : c ≠ bs) :
    ∀ t : List Char, c ∉ t → c ∉ escapeDelim d t := by
  intro t
  induction t with
  | nil => intro _; simp [escapeDelim]
  | cons x xs ih =>
    intro h
    have hx : c ≠ x := fun hh => h (by simp [hh])
    have hxs : c ∉ xs := fun hh => h (List.mem_cons_of_mem _ hh)
    simp only [escapeDelim]
    split
    · rename_i hd
      have hcd : c ≠ d := hd ▸ hx
      simp [hb, hcd, ih hxs]
    · simp [hx, ih hxs]

lemma not_mem_escape_value {c : Char} (d : Char) (s : List Char) (h : c ∉ s) (hb : c ≠ bs) :
    c ∉ escape_value d s :=
  not_mem_escapeDelim d hb _ (not_mem_escapeBackslash hb s h)

lemma c_str_of_not_mem : ∀ s : List Char, nul ∉ s → c_str s = s := by
  intro s
  induction s with
  | nil => intro _; rfl
  | cons x xs ih =>
    intro h
    have hx : ¬(x = nul) := fun hh => h (by simp [hh])
    simp only [c_str, if_neg hx]
    rw [ih (fun hh => h (List.mem_cons_of_mem _ hh))]

lemma c_str_escape_of_not_mem (d : Char) (s : List Char) (h : nul ∉ s) :
    c_str (escape_value d s) = escape_value d s :=
  c_str_of_not_mem _ (not_mem_escape_value d s h (by decide))

lemma emit_elem_append {ba : Bool} {sd : Char} {v : Value}
    (h : ∀ os2 : List Char, insert ba os2 v = os2 ++ format ba v) (os : List Char) :
    emit_elem ba os sd v = os ++ elem_text ba sd v := by
  cases v
  case strV s => simp [emit_elem, elem_text, decorate_string]
  all_goals (simp only [emit_elem, elem_text]; rw [h os]; simp [format])

lemma decorate_loop_append {ba : Bool} {sd : Char} {vsep : List Char} :
    ∀ {l : List Value},
      (∀ w ∈ l, ∀ os2 : List Char, insert ba os2 w = os2 ++ format ba w) →
      ∀ (os : List Char) (p : Bool),
        decorate_loop ba sd vsep os p l = os ++ decorate_loop_text ba sd vsep p l := by
  intro l
  induction l with
  | nil => intro _ os p; simp [decorate_loop, decorate_loop_text]
  | cons v vs ih =>
    intro h os p
    have hv : ∀ os2 : List Char, insert ba os2 v = os2 ++ format ba v := h v (by simp)
    have hvs : ∀ w ∈ vs, ∀ os2 : List Char, insert ba os2 w = os2 ++ format ba w :=
      fun w hw => h w (by simp [hw])
    simp only [decorate_loop_text, decorate_loop]
    rw [ih hvs, ih hvs, emit_elem_append hv, emit_elem_append hv]
    cases p <;> simp

lemma decorate_assoc_loop_append {ba : Bool} {sd : Char} {vsep kvsep : List Char} :
    ∀ {l : List (Value × Value)},
      (∀ kv ∈ l, (∀ os2 : List Char, insert ba os2 kv.1 = os2 ++ format ba kv.1) ∧
        (∀ os2 : List Char, insert ba os2 kv.2 = os2 ++ format ba kv.2)) →
      ∀ (os : List Char) (p : Bool),
        decorate_assoc_loop ba sd vsep kvsep os p l
          = os ++ decorate_assoc_loop_text ba sd vsep kvsep p l := by
  intro l
  induction l with
  | nil => intro _ os p; simp [decorate_assoc_loop, decorate_assoc_loop_text]
  | cons kv rest ih =>
    intro h os p
    obtain ⟨k, v⟩ := kv
    have hk : ∀ os2 : List Char, insert ba os2 k = os2 ++ format ba k := (h (k, v) (by simp)).1
    have hv : ∀ os2 : List Char, insert ba os2 v = os2 ++ format ba v := (h (k, v) (by simp)).2
    have hrest : ∀ kv ∈ rest,
        (∀ os2 : List Char, insert ba os2 kv.1 = os2 ++ format ba kv.1) ∧
          (∀ os2 : List Char, insert ba os2 kv.2 = os2 ++ format ba kv.2) :=
      fun kv hkv => h kv (List.mem_cons_of_mem _ hkv)
    simp only [decorate_assoc_loop_text, decorate_assoc_loop]
    rw [ih hrest, ih hrest, emit_elem_append hv, emit_elem_append hv,
      emit_elem_append hk, emit_elem_append hk]
    cases p <;> simp

lemma decorate_tuple_eq_loop (ba : Bool) (sd : Char) (vsep : List Char) :
    ∀ (l : List Value) (os : List Char) (p : Bool),
      decorate_tuple ba sd vsep os p l = decorate_loop ba sd vsep os p l := by
  intro l
  induction l with
  | nil => intro os p; simp [decorate_tuple, decorate_loop]
  | cons v vs ih =>
    intro os p
    simp only [decorate_tuple, decorate_loop]
    rw [ih]

lemma insert_append_aux :
    ∀ (n : Nat) (v : Value), sizeOf v ≤ n →
      ∀ (ba : Bool) (os : List Char), insert ba os v = os ++ format ba v := by
  intro n
  induction n with
  | zero =>
    intro v hv
    exfalso
    cases v <;> simp at hv
  | succ n ih =>
    intro v hv ba os
    cases v with
    | intV m => simp [insert, format]
    | boolV b => simp [insert, format]
    | strV s => simp [insert, format]
    | seqV l =>
      have hmem : ∀ w ∈ l, ∀ os2 : List Char, insert ba os2 w = os2 ++ format ba w := by
        intro w hw os2
        refine ih w ?_ ba os2
        have h1 := List.sizeOf_lt_of_mem hw
        have h2 : sizeOf (Value.seqV l) = 1 + sizeOf l := by simp
        omega
      simp only [insert, format, decorate]
      rw [decorate_loop_append hmem, decorate_loop_append hmem]
      simp
    | setV l =>
      have hmem : ∀ w ∈ l, ∀ os2 : List Char, insert ba os2 w = os2 ++ format ba w := by
        intro w hw os2
        refine ih w ?_ ba os2
        have h1 := List.sizeOf_lt_of_mem hw
        have h2 : sizeOf (Value.setV l) = 1 + sizeOf l := by simp
        omega
      simp only [insert, format, decorate]
      rw [decorate_loop_append hmem, decorate_loop_append hmem]
      simp
    | tupV l =>
      have hmem : ∀ w ∈ l, ∀ os2 : List Char, insert ba os2 w = os2 ++ format ba w := by
        intro w hw os2
        refine ih w ?_ ba os2
        have h1 := List.sizeOf_lt_of_mem hw
        have h2 : sizeOf (Value.tupV l) = 1 + sizeOf l := by simp
        omega
      simp only [insert, format, decorate_tup]
      rw [decorate_tuple_eq_loop, decorate_tuple_eq_loop,
        decorate_loop_append hmem, decorate_loop_append hmem]
      simp
    | mapV l =>
      have hmem : ∀ kv ∈ l, (∀ os2 : List Char, insert ba os2 kv.1 = os2 ++ format ba kv.1) ∧
          (∀ os2 : List Char, insert ba os2 kv.2 = os2 ++ format ba kv.2) := by
        intro kv hkv
        have h1 := List.sizeOf_lt_of_mem hkv
        have h2 : sizeOf (Value.mapV l) = 1 + sizeOf l := by simp
        obtain ⟨k, w⟩ := kv
        simp only [Prod.mk.sizeOf_spec] at h1
        constructor <;> intro os2 <;> refine ih _ ?_ ba os2 <;> simp only at h2 ⊢ <;> omega
      simp only [insert, format, decorate_assoc]
      rw [decorate_assoc_loop_append hmem, decorate_assoc_loop_append hmem]
      simp

lemma insert_append (ba : Bool) (v : Value) (os : List Char) :
    insert ba os v = os ++ format ba v :=
  insert_append_aux (sizeOf v) v le_rfl ba os

lemma intercalate_cons_flatten (vsep : List Char) :
    ∀ (xs : List (List Char)) (x : List Char),
      List.intercalate vsep (x :: xs) = x ++ (xs.map (fun y => vsep ++ y)).flatten := by
  intro xs
  induction xs with
  | nil => intro x; simp [List.intercalate]
  | cons y ys ih =>
    intro x
    have h2 : List.intercalate vsep (x :: y :: ys)
        = x ++ (vsep ++ List.intercalate vsep (y :: ys)) := by
      simp [List.intercalate, List.intersperse_cons_cons]
    rw [h2, ih y]
    simp

lemma decorate_loop_text_true (ba : Bool) (sd : Char) (vsep : List Char) :
    ∀ l : List Value,
      decorate_loop_text ba sd vsep true l
        = (l.map (fun v => vsep ++ elem_text ba sd v)).flatten := by
  intro l
  induction l with
  | nil => simp [decorate_loop_text, decorate_loop]
  | cons v vs ih =>
    simp only [decorate_loop_text, decorate_loop]
    rw [decorate_loop_append (fun w _ os2 => insert_append ba w os2),
      emit_elem_append (fun os2 => insert_append ba v os2)]
    rw [ih]
    simp

lemma decorate_loop_text_false (ba : Bool) (sd : Char) (vsep : List Char) :
    ∀ l : List Value,
      decorate_loop_text ba sd vsep false l
        = List.intercalate vsep (l.map (elem_text ba sd)) := by
  intro l
  cases l with
  | nil => simp [decorate_loop_text, decorate_loop, List.intercalate]
  | cons v vs =>
    simp only [decorate_loop_text, decorate_loop]
    rw [decorate_loop_append (fun w _ os2 => insert_append ba w os2),
      emit_elem_append (fun os2 => insert_append ba v os2),
      decorate_loop_text_true, List.map_cons, intercalate_cons_flatten]
    simp [Function.comp_def]

lemma decorate_assoc_loop_text_true (ba : Bool) (sd : Char) (vsep kvsep : List Char) :
    ∀ l : List (Value × Value),
      decorate_assoc_loop_text ba sd vsep kvsep true l
        = (l.map (fun kv => vsep ++ entry_text ba sd kvsep kv)).flatten := by
  intro l
  induction l with
  | nil => simp [decorate_assoc_loop_text, decorate_assoc_loop]
  | cons kv rest ih =>
    obtain ⟨k, v⟩ := kv
    simp only [decorate_assoc_loop_text, decorate_assoc_loop]
    rw [decorate_assoc_loop_append
        (fun kv _ => ⟨fun os2 => insert_append ba kv.1 os2, fun os2 => insert_append ba kv.2 os2⟩),
      emit_elem_append (fun os2 => insert_append ba v os2),
      emit_elem_append (fun os2 => insert_append ba k os2)]
    rw [ih]
    simp [entry_text]

lemma decorate_assoc_loop_text_false (ba : Bool) (sd : Char) (vsep kvsep : List Char) :
    ∀ l : List (Value × Value),
      decorate_assoc_loop_text ba sd vsep kvsep false l
        = List.intercalate vsep (l.map (entry_text ba sd kvsep)) := by
  intro l
  cases l with
  | nil => simp [decorate_assoc_loop_text, decorate_assoc_loop, List.intercalate]
  | cons kv rest =>
    obtain ⟨k, v⟩ := kv
    simp only [decorate_assoc_loop_text, decorate_assoc_loop]
    rw [decorate_assoc_loop_append
        (fun kv _ => ⟨fun os2 => insert_append ba kv.1 os2, fun os2 => insert_append ba kv.2 os2⟩),
      emit_elem_append (fun os2 => insert_append ba v os2),
      emit_elem_append (fun os2 => insert_append ba k os2),
      decorate_assoc_loop_text_true, List.map_cons, intercalate_cons_flatten]
    simp [entry_text, Function.comp_def]

lemma format_seqV (ba : Bool) (l : List Value) :
    format ba (Value.seqV l)
      = '[' :: (List.intercalate (", ".toList) (l.map (elem_text ba sq)) ++ [']']) := by
  rw [format]
  simp only [insert, decorate]
  rw [decorate_loop_append (fun w _ os2 => insert_append ba w os2), decorate_loop_text_false]
  simp

lemma format_setV (ba : Bool) (l : List Value) :
    format ba (Value.setV l)
      = '[' :: (List.intercalate (", ".toList) (l.map (elem_text ba sq)) ++ [']']) := by
  rw [format]
  simp only [insert, decorate]
  rw [decorate_loop_append (fun w _ os2 => insert_append ba w os2), decorate_loop_text_false]
  simp

lemma format_tupV (ba : Bool) (l : List Value) :
    format ba (Value.tupV l)
      = '(' :: (List.intercalate (", ".toList) (l.map (elem_text ba sq)) ++ [')']) := by
  rw [format]
  simp only [insert, decorate_tup]
  rw [decorate_tuple_eq_loop,
    decorate_loop_append (fun w _ os2 => insert_append ba w os2), decorate_loop_text_false]
  simp

lemma format_mapV (ba : Bool) (l : List (Value × Value)) :
    format ba (Value.mapV l)
      = lcur :: (List.intercalate (", ".toList) (l.map (entry_text ba sq (": ".toList)))
          ++ [rcur]) := by
  rw [format]
  simp only [insert, decorate_assoc]
  rw [decorate_assoc_loop_append
      (fun kv _ => ⟨fun os2 => insert_append ba kv.1 os2, fun os2 => insert_append ba kv.2 os2⟩),
    decorate_assoc_loop_text_false]
  simp

/-- C1: the claim says the default configuration uses `[`/`]` for sequences,
curly braces for sets and mappings, `(`/`)` for tuples.  The code does not: the
macro block at container_io.hpp:331-338 instantiates the set operators
(`set`, `multiset`, `unordered_set`, `unordered_multiset`) with the same
`{"[", "]"}` delimiters as the sequence operators, so every set formats with
square brackets, contradicting both the claim and the header's own
documentation comment (container_io.hpp:38, `std::set {1, 2}`).  This theorem
evaluates the embedded code: every set formats as `[` elements `]`, and the
concrete set `{1, 2}` prints `[1, 2]`, not `{1, 2}`. -/
theorem set_uses_sequence_delimiters :
    (∀ (ba : Bool) (l : List Value),
      format ba (Value.setV l)
        = '[' :: (List.intercalate (", ".toList) (l.map (elem_text ba sq)) ++ [']']))
    ∧ format false (Value.setV [Value.intV 1, Value.intV 2]) = "[1, 2]".toList
    ∧ format false (Value.setV [Value.intV 1, Value.intV 2])
        ≠ [lcur] ++ "1, 2".toList ++ [rcur] := by
  refine ⟨format_setV, ?_, ?_⟩ <;>
    (simp only [format, insert, decorate, decorate_loop, emit_elem]; decide)

/-- C2: the escaping step of `decorate_string` first replaces every backslash
by two backslashes, then every occurrence of the configured delimiter `d` by
backslash-`d`, and leaves every other character unchanged: for a delimiter
other than backslash itself the two passes amount to the per-character map
`esc_char`. -/
theorem escape_characterization (d : Char) (s : List Char) (h : d ≠ bs) :
    escape_value d s = s.flatMap (esc_char d) :=
  escape_value_flatMap d h s

/-- Witness for C2 at the default delimiter and the text backslash-`a`-quote. -/
theorem escape_characterization_witness :
    sq ≠ bs ∧ escape_value sq [bs, 'a', sq] = [bs, 'a', sq].flatMap (esc_char sq) :=
  ⟨by decide, escape_characterization sq [bs, 'a', sq] (by decide)⟩

/-- C3: the spec's unescape rule (backslash-backslash to backslash,
backslash-delimiter to delimiter, scanning left to right) recovers every text
from the code's escaping step exactly, for any delimiter other than backslash
itself. -/
theorem unescape_escape_roundtrip (d : Char) (s : List Char) (h : d ≠ bs) :
    unescape d (escape_value d s) = some s :=
  unescape_escape d h s

/-- Witness for C3 at the default delimiter on text containing both the
delimiter and a backslash. -/
theorem unescape_escape_roundtrip_witness :
    sq ≠ bs ∧ unescape sq (escape_value sq ['i', 't', sq, bs, 's']) = some ['i', 't', sq, bs, 's'] :=
  ⟨by decide, unescape_escape_roundtrip sq ['i', 't', sq, bs, 's'] (by decide)⟩

/-- C4: formatting a sequence of n elements yields `[`, the element texts
joined by the separator `", "` (the `intercalate` below inserts the separator
exactly n-1 times, once before every element except the first and nowhere
else), then `]`; the output starts with `[` and ends with `]`. -/
theorem seq_format_structure (ba : Bool) (l : List Value) :
    format ba (Value.seqV l)
      = '[' :: (List.intercalate (", ".toList) (l.map (elem_text ba sq)) ++ [']'])
    ∧ (format ba (Value.seqV l)).head? = some '['
    ∧ (format ba (Value.seqV l)).getLast? = some ']' := by
  refine ⟨format_seqV ba l, ?_, ?_⟩ <;> rw [format_seqV ba l]
  · rfl
  · rw [← List.cons_append]
    exact List.getLast?_concat _

/-- C5: formatting a mapping renders each entry as key text, `": "`, value
text (keys and values dispatched through the string-like check, hence
escaped and delimiter-wrapped exactly when string-like), entries joined by
`", "` in iteration order, wrapped in curly braces; the example mapping
a-to-1, b-to-2 prints as the claim's example text. -/
theorem map_format_structure (ba : Bool) (l : List (Value × Value)) :
    format ba (Value.mapV l)
      = lcur :: (List.intercalate (", ".toList) (l.map (entry_text ba sq (": ".toList)))
          ++ [rcur])
    ∧ format false (Value.mapV [(Value.strV ("a".toList), Value.intV 1),
        (Value.strV ("b".toList), Value.intV 2)])
      = [lcur, sq, 'a', sq, ':', ' ', '1', ',', ' ', sq, 'b', sq, ':', ' ', '2', rcur] := by
  refine ⟨format_mapV ba l, ?_⟩
  simp only [format, insert, decorate_assoc, decorate_assoc_loop, emit_elem, decorate_string,
    escape_value]
  decide

/-- Counterexample for C6: the claim says a string-like element is emitted
with its full escaped content between the delimiters, control characters
included; but the code writes the escaped value via `os << value.c_str()`
(container_io.hpp:131), which stops at the first embedded NUL.  Formatting the
one-element sequence holding the string a-NUL-b emits only the quote, `a` and
the closing quote between the brackets, not the escaped content a-NUL-b. -/
theorem string_nul_truncation_cex :
    format false (Value.seqV [Value.strV ['a', nul, 'b']]) = ['[', sq, 'a', sq, ']']
    ∧ format false (Value.seqV [Value.strV ['a', nul, 'b']])
        ≠ ['[', sq] ++ escape_value sq ['a', nul, 'b'] ++ [sq, ']'] := by
  refine ⟨?_, ?_⟩ <;>
    (simp only [format, insert, decorate, decorate_loop, emit_elem, decorate_string,
      escape_value]; decide)

/-- C6 as amended: inside every container loop a string-like element is
emitted as the configured delimiter, the escaped content truncated at its
first embedded NUL (the `c_str()` write of hpp:131), the delimiter again —
which for every NUL-free string is exactly the claim's full escaped content;
an int or bool scalar is emitted via its natural text, unescaped and
unwrapped; and the one-element sequence holding the string it-quote-s prints
exactly as bracket, quote, i, t, backslash, quote, s, quote, bracket. -/
theorem string_scalar_wrapping (ba : Bool) (os s : List Char) (sd : Char) (n : Int) (b : Bool) :
    emit_elem ba os sd (Value.strV s) = os ++ [sd] ++ c_str (escape_value sd s) ++ [sd]
    ∧ (nul ∉ s → emit_elem ba os sd (Value.strV s) = os ++ [sd] ++ escape_value sd s ++ [sd])
    ∧ emit_elem ba os sd (Value.intV n) = os ++ intText n
    ∧ emit_elem ba os sd (Value.boolV b) = os ++ boolText ba b
    ∧ format false (Value.seqV [Value.strV ['i', 't', sq, 's']])
      = ['[', sq, 'i', 't', bs, sq, 's', sq, ']'] := by
  refine ⟨by simp [emit_elem, decorate_string],
    fun h => by simp [emit_elem, decorate_string, c_str_escape_of_not_mem sd s h],
    by simp [emit_elem, insert], by simp [emit_elem, insert], ?_⟩
  simp only [format, insert, decorate, decorate_loop, emit_elem, decorate_string, escape_value]
  decide

/-- Witness for C6 as amended, at a NUL-free string containing the delimiter:
the NUL-freeness hypothesis is discharged and the full escaped wrap holds. -/
theorem string_scalar_wrapping_witness :
    nul ∉ (['i', 't', sq, 's'] : List Char)
    ∧ emit_elem false [] sq (Value.strV ['i', 't', sq, 's'])
        = [] ++ [sq] ++ escape_value sq ['i', 't', sq, 's'] ++ [sq] :=
  ⟨by decide,
    (string_scalar_wrapping false [] ['i', 't', sq, 's'] sq 0 false).2.1 (by decide)⟩

/-- C7: formatting is deterministic and free of hidden mutable state: what a
formatting call writes is exactly the prior stream contents followed by a pure
function of the value and the stream's formatting flag, so two runs on equal
inputs append byte-identical text regardless of what was already in the
stream. -/
theorem format_stream_independent (ba : Bool) (v : Value) (os os1 os2 : List Char) :
    insert ba os v = os ++ format ba v
    ∧ (insert ba os1 v).drop os1.length = (insert ba os2 v).drop os2.length := by
  refine ⟨insert_append ba v os, ?_⟩
  rw [insert_append ba v os1, insert_append ba v os2, List.drop_left, List.drop_left]

/-- C8: an empty container prints as its open delimiter immediately followed
by its close delimiter with no separator.  For the empty sequence this is `[]`
and for the empty mapping `{}` as the claim says; but for the empty set the
code prints `[]`, not the claim's `{}`, because the set operators are
instantiated with `{"[", "]"}` (container_io.hpp:331-338) against the header's
own documentation (container_io.hpp:38). -/
theorem empty_container_format :
    format false (Value.seqV []) = ['[', ']']
    ∧ format false (Value.mapV []) = [lcur, rcur]
    ∧ format false (Value.setV []) = ['[', ']']
    ∧ format false (Value.setV []) ≠ [lcur, rcur] := by
  refine ⟨?_, ?_, ?_, ?_⟩ <;>
    (simp only [format, insert, decorate, decorate_assoc, decorate_loop, decorate_assoc_loop];
      decide)

/-- Counterexample for C9: with the default-configuration formatting (plain
stream, no `boolalpha`), the tuple `(1, "foo", true)` does not print as
`(1, 'foo', true)` — standard streams print `bool` as `1` unless `boolalpha`
is set, which the operators never set. -/
theorem tuple_bool_claim_cex :
    ¬ (format false (Value.tupV [Value.intV 1, Value.strV ['f', 'o', 'o'], Value.boolV true])
        = ['(', '1', ',', ' ', sq, 'f', 'o', 'o', sq, ',', ' ', 't', 'r', 'u', 'e', ')']) := by
  simp only [format, insert, decorate_tup, decorate_tuple, emit_elem, decorate_string,
    escape_value]
  decide

/-- C9 as amended: the tuple `(1, "foo", true)` prints elements in declaration
order, wrapped in parentheses, joined by `", "`, the string delimiter-wrapped —
but the boolean prints as `1` on a default stream; the word form `true`
appears only when the stream has `boolalpha` set, as the header itself notes. -/
theorem tuple_bool_format :
    format false (Value.tupV [Value.intV 1, Value.strV ['f', 'o', 'o'], Value.boolV true])
      = ['(', '1', ',', ' ', sq, 'f', 'o', 'o', sq, ',', ' ', '1', ')']
    ∧ format true (Value.tupV [Value.intV 1, Value.strV ['f', 'o', 'o'], Value.boolV true])
      = ['(', '1', ',', ' ', sq, 'f', 'o', 'o', sq, ',', ' ', 't', 'r', 'u', 'e', ')'] := by
  refine ⟨?_, ?_⟩ <;>
    (simp only [format, insert, decorate_tup, decorate_tuple, emit_elem, decorate_string,
      escape_value]; decide)

/-- C10: `operator<<` for `std::pair` streams the pair converted to a
two-element tuple, so a pair formats exactly as the corresponding tuple:
wrapped in parentheses with the tuple's separator and escaping, starting with
`(` and ending with `)` — not sequence or mapping delimiters. -/
theorem pair_formats_as_tuple (ba : Bool) (os : List Char) (a b : Value) :
    pair_insert ba os a b = insert ba os (Value.tupV [a, b])
    ∧ pair_insert ba [] a b
        = '(' :: (List.intercalate (", ".toList) ([a, b].map (elem_text ba sq)) ++ [')'])
    ∧ (pair_insert ba [] a b).head? = some '('
    ∧ (pair_insert ba [] a b).getLast? = some ')' := by
  have h2 : pair_insert ba [] a b
      = '(' :: (List.intercalate (", ".toList) ([a, b].map (elem_text ba sq)) ++ [')']) := by
    rw [pair_insert, ← format, format_tupV]
  refine ⟨rfl, h2, ?_, ?_⟩ <;> rw [h2]
  · rfl
  · rw [← List.cons_append]
    exact List.getLast?_concat _

end Tesuji
